import Mathlib

/-!
Verification development for the Fandomassenger mass-messaging tool.

The Python sources are shallowly embedded: strings are modelled as
`List Char` where character-level processing matters, stateful callback
classes become explicit state-passing functions, Python exceptions become
`Except PyErr`, and the HTTP layer is replaced by explicit mocked response
values (the same way the repository's behaviour is described against mocked
two-page response sequences).  Numeric sort keys produced by `float(c)`
on pure digit strings are modelled as `Nat` (exact for all values below
2^53; no claim here involves titles with digit runs long enough for IEEE
rounding to matter).
-/

deriving instance DecidableEq for Except

/-- Python exceptions relevant to the embedded code.  `queryExc` and
`inputExc` are the two application exception classes from `api.py`;
the rest are built-in Python exceptions that the code can raise. -/
inductive PyErr
  | queryExc
  | inputExc
  | keyError
  | indexError
  | typeErr
  | zeroDiv
  deriving DecidableEq, Repr

/-! ## Natural ("human") sort from `api.get_category_members`

The sort key is `[float(c) if c.isdigit() else c.lower() for c in
re.split(regex, m)]` where `regex` is
`[+-]?([0-9]+(?:[.][0-9]*)?|[.][0-9]+)` (one capture group, so `re.split`
interleaves the non-matching text chunks with the captured numeric runs;
the optional sign is consumed by the match but lies outside the capture
group and is dropped from the output). -/

def isDigitC (c : Char) : Bool := '0' ≤ c && c ≤ '9'

/-- Model of the regex `[+-]?([0-9]+(?:[.][0-9]*)?|[.][0-9]+)` attempted at
the head of the input: returns the group-1 capture and the unconsumed rest
when the pattern matches here.  The core alternation is tried after the
optional sign; if the sign is present but the core fails, the `[+-]?`
backtracks to the empty alternative, where the core fails again (the head
would be the sign character, neither a digit nor a dot-digit). -/
def matchNumCore : List Char → Option (List Char × List Char)
  | [] => none
  | c :: rest =>
    if isDigitC c then
      let ds := (c :: rest).takeWhile isDigitC
      let r := (c :: rest).dropWhile isDigitC
      match r with
      | '.' :: r2 => some (ds ++ '.' :: r2.takeWhile isDigitC, r2.dropWhile isDigitC)
      | _ => some (ds, r)
    else if c = '.' then
      match rest with
      | c2 :: _ =>
        if isDigitC c2 then some ('.' :: rest.takeWhile isDigitC, rest.dropWhile isDigitC)
        else none
      | [] => none
    else none

def matchNum : List Char → Option (List Char × List Char)
  | [] => none
  | c :: rest =>
    if c = '+' ∨ c = '-' then matchNumCore rest
    else matchNumCore (c :: rest)

/-- Model of `re.split` with the one-group numeric regex: scan left to
right; non-matching characters accumulate into text chunks, each match
emits the pending text chunk followed by its captured group.  The fuel is
the input length plus one; every step consumes at least one character, so
the fuel never runs out. -/
def reSplitNumAux : Nat → List Char → List Char → List (List Char)
  | 0, acc, _ => [acc.reverse]
  | _ + 1, acc, [] => [acc.reverse]
  | fuel + 1, acc, c :: rest =>
    match matchNum (c :: rest) with
    | some (g, r) => acc.reverse :: g :: reSplitNumAux fuel [] r
    | none => reSplitNumAux fuel (c :: acc) rest

def reSplitNum (s : List Char) : List (List Char) :=
  reSplitNumAux (s.length + 1) [] s

/-- One element of a Python sort key: either a lowered text chunk or the
numeric value of a pure-digit chunk (Python `float(c)` on an all-digit
string). -/
inductive KeyElem
  | str (s : List Char)
  | num (n : Nat)
  deriving DecidableEq, Repr

def natOfDigits (l : List Char) : Nat :=
  l.foldl (fun acc c => 10 * acc + (c.toNat - '0'.toNat)) 0

/-- Python `str.isdigit` restricted to ASCII text: nonempty and all digits.
(Python's `isdigit` also accepts non-ASCII Unicode digit characters, on
which `float()` then raises; titles here are modelled over text where
`isdigit` coincides with `[0-9]+`.) -/
def pyIsDigit (l : List Char) : Bool := !l.isEmpty && l.all isDigitC

def toLowerChunk (l : List Char) : List Char := l.map Char.toLower

/-- The sort key of one title, as built by the key lambda in
`get_category_members`. -/
def natKey (m : List Char) : List KeyElem :=
  (reSplitNum m).map fun c => if pyIsDigit c then .num (natOfDigits c) else .str (toLowerChunk c)

/-- Lexicographic comparison of two character lists by code point, the way
Python compares `str` values. -/
def cmpChars : List Char → List Char → Ordering
  | [], [] => .eq
  | [], _ :: _ => .lt
  | _ :: _, [] => .gt
  | a :: as, b :: bs =>
    if a < b then .lt else if b < a then .gt else cmpChars as bs

/-- Comparison of two key elements.  A `str` never equals a `num` in
Python (`==` is `False`), so ordering them falls through to `<`, which
raises `TypeError`: that pair is incomparable (`none`). -/
def cmpElem : KeyElem → KeyElem → Option Ordering
  | .str a, .str b => some (cmpChars a b)
  | .num a, .num b => some (compare a b)
  | _, _ => none

/-- Python list comparison on keys: find the first position whose elements
differ; mixed-type elements there make the lists incomparable.  A list
that is a strict prefix of the other is smaller. -/
def cmpKey : List KeyElem → List KeyElem → Option Ordering
  | [], [] => some .eq
  | [], _ :: _ => some .lt
  | _ :: _, [] => some .gt
  | a :: as, b :: bs =>
    if a = b then cmpKey as bs
    else match cmpElem a b with
      | none => none
      | some .eq => cmpKey as bs
      | some o => some o

/-- Python `key(x) < key(y)`: `TypeError` when the keys are incomparable. -/
def pyLtKey (x y : List Char) : Except PyErr Bool :=
  match cmpKey (natKey x) (natKey y) with
  | none => .error .typeErr
  | some o => .ok (decide (o = .lt))

/-- Insert a title into an already-sorted accumulator, after every element
it is not strictly smaller than (the stable placement used by Python's
sort for a later-arriving element). -/
def insertSorted (x : List Char) : List (List Char) → Except PyErr (List (List Char))
  | [] => .ok [x]
  | y :: ys => do
    let b ← pyLtKey x y
    if b then
      .ok (x :: y :: ys)
    else do
      let r ← insertSorted x ys
      .ok (y :: r)

/-- Model of `members.sort(key=...)` as a stable insertion sort in the
exception monad.  CPython's Timsort may perform a different sequence of
comparisons on longer inputs, but it agrees with this model whenever every
pair of keys it compares is comparable, and on two-element lists (where
both algorithms perform exactly the one comparison) it also agrees on
raising `TypeError`. -/
def sortMembers (l : List (List Char)) : Except PyErr (List (List Char)) :=
  l.foldlM (fun acc x => insertSorted x acc) []

/-! ## Category pagination from `api._get_category_members` and friends

The HTTP layer is mocked: a `CMPage` is one success-shaped
`categorymembers` response (a title batch plus an optional
`query-continue` cursor), and a run consumes a list of such responses in
request order, exactly like a mocked two-page response sequence.  A
request made after the mock is exhausted is modelled as a transport
failure (`QueryException`).  Observable side effects are traced: one
`req` per outbound request and one `sleep` per pacing sleep. -/

structure CMPage where
  titles : List (List Char)
  cmcontinue : Option (List Char)
  deriving DecidableEq, Repr

inductive Ev
  | req
  | sleep
  deriving DecidableEq, Repr

/-- Model of `_get_category_members` for one category: issue the request,
accumulate the page's titles, and if the response carries a
`query-continue` cursor, sleep once and recurse with the cursor attached.
Returns the titles gathered for this category, the unconsumed remainder
of the mocked response stream, and the event trace. -/
def getCMrec : List CMPage → Except PyErr (List (List Char)) × List CMPage × List Ev
  | [] => (.error .queryExc, [], [.req])
  | p :: rest =>
    match p.cmcontinue with
    | none => (.ok p.titles, rest, [.req])
    | some _ =>
      let (r, left, evs) := getCMrec rest
      (r.map (p.titles ++ ·), left, .req :: .sleep :: evs)

/-- Model of `_get_category_members_process`: fold `getCMrec` over the
category list (only the number of categories matters to the mock),
concatenating the per-category title lists in input order. -/
def getCMprocess : List (List Char) → List CMPage →
    Except PyErr (List (List Char)) × List CMPage × List Ev
  | [], stream => (.ok [], stream, [])
  | _ :: cats, stream =>
    match getCMrec stream with
    | (.error e, left, evs) => (.error e, left, evs)
    | (.ok ts, left, evs) =>
      let (r2, left2, evs2) := getCMprocess cats left
      (r2.map (ts ++ ·), left2, evs ++ evs2)

/-- Normalization of a category name: prepend the `Category:` namespace
unless the first nine characters already are it. -/
def normalizeCat (c : List Char) : List Char :=
  if c.take 9 = "Category:".data then c else "Category:".data ++ c

/-- Model of `api.get_category_members` against a mocked response stream:
normalize category names, gather all members, deduplicate (Python goes
through `set`; the model keeps first occurrences, one of the orders the
set may produce — the subsequent sort makes the choice observationally
irrelevant up to ties), and natural-sort the nonempty result.  The second
component is the event trace of requests and pacing sleeps. -/
def get_category_members (cats : List (List Char)) (stream : List CMPage) :
    Except PyErr (List (List Char)) × List Ev :=
  let cats' := cats.map normalizeCat
  match getCMprocess cats' stream with
  | (.error e, _, evs) => (.error e, evs)
  | (.ok ms, _, evs) =>
    let members := ms.dedup
    if members.isEmpty then (.ok members, evs)
    else (sortMembers members, evs)

/-! ## JSON values

A small model of parsed JSON, used both for the jsonModel document built
by `util.JsonModelHTMLParser` and for API response bodies.  Numbers are
modelled as rationals (exact for every integer payload a claim touches);
objects keep their key/value pairs in insertion order, the order
`json.dumps` serializes them in. -/

inductive Json
  | null
  | bool (b : Bool)
  | num (q : ℚ)
  | str (s : String)
  | arr (elems : List Json)
  | obj (fields : List (String × Json))

/-- Structural equality of JSON values, used only to state concrete
evaluation results. -/
def Json.beq : Json → Json → Bool
  | .null, .null => true
  | .bool a, .bool b => a = b
  | .num a, .num b => a = b
  | .str a, .str b => a = b
  | .arr a, .arr b => beqList a b
  | .obj a, .obj b => beqFields a b
  | _, _ => false
where
  beqList : List Json → List Json → Bool
    | [], [] => true
    | x :: xs, y :: ys => x.beq y && beqList xs ys
    | _, _ => false
  beqFields : List (String × Json) → List (String × Json) → Bool
    | [], [] => true
    | (k, x) :: xs, (l, y) :: ys => k = l && x.beq y && beqFields xs ys
    | _, _ => false

/-! ## Markup tree builder from `util.JsonModelHTMLParser`

The Python class keeps two stacks of *references*: a link node pushed on
`links_stack` is simultaneously appended to the innermost paragraph's
content list, and later `handle_data` mutates it through the stack alias.
The embedding makes the aliasing explicit with an identifier heap: link
nodes live in `heap` (identifier = allocation index), paragraph content
holds either inline text or a link identifier, and mutating a link through
the stack is an update of the heap cell.  Stacks are Lean lists with the
head as the top; content lists append on the right, in document order. -/

/-- The payload of one link node: the `href` and `title` attributes kept
by `handle_starttag` (last occurrence of an attribute wins, as repeated
dict assignment does) and the display text, present only once some
`handle_data` call has assigned it. -/
structure LinkNode where
  href : Option String
  title : Option String
  text : Option String
  deriving DecidableEq, Repr

inductive PNode
  | text (s : String)
  | linkRef (id : Nat)
  deriving DecidableEq, Repr

abbrev Paragraph := List PNode

structure ParserState where
  heap : List LinkNode
  paragraphs_stack : List Paragraph
  links_stack : List Nat
  json_model : List Paragraph
  deriving DecidableEq, Repr

def initParser : ParserState := ⟨[], [], [], []⟩

def mkLinkNode (attrs : List (String × String)) : LinkNode :=
  attrs.foldl
    (fun ln a =>
      if a.1 = "href" then { ln with href := some a.2 }
      else if a.1 = "title" then { ln with title := some a.2 }
      else ln)
    ⟨none, none, none⟩

/-- Model of `handle_starttag`: a `p` pushes a fresh empty paragraph; an
`a` builds a link node from the `href`/`title` attributes, pushes it on
the link stack and appends it to the innermost paragraph's content —
`paragraphs_stack[-1]` raises `IndexError` when no paragraph is open.
Other tags are ignored. -/
def handle_starttag (s : ParserState) (tag : String) (attrs : List (String × String)) :
    Except PyErr ParserState :=
  if tag = "p" then
    .ok { s with paragraphs_stack := [] :: s.paragraphs_stack }
  else if tag = "a" then
    match s.paragraphs_stack with
    | [] => .error .indexError
    | p :: ps =>
      let id := s.heap.length
      .ok { s with
        heap := s.heap ++ [mkLinkNode attrs]
        links_stack := id :: s.links_stack
        paragraphs_stack := (p ++ [.linkRef id]) :: ps }
  else .ok s

/-- Model of `handle_endtag`: a `/p` pops the paragraph stack and appends
the popped paragraph to the document content; an `/a` pops the link
stack.  `list.pop()` on an empty stack raises `IndexError`. -/
def handle_endtag (s : ParserState) (tag : String) : Except PyErr ParserState :=
  if tag = "p" then
    match s.paragraphs_stack with
    | [] => .error .indexError
    | p :: ps => .ok { s with paragraphs_stack := ps, json_model := s.json_model ++ [p] }
  else if tag = "a" then
    match s.links_stack with
    | [] => .error .indexError
    | _ :: ls => .ok { s with links_stack := ls }
  else .ok s

def setText (ln : LinkNode) (d : String) : LinkNode := { ln with text := some d }

/-- Model of `handle_data`: with an open link, the data becomes that
link's display text (an assignment, overwriting any earlier text); with
no open link but an open paragraph, a fresh text node is appended to that
paragraph; otherwise the data is dropped. -/
def handle_data (s : ParserState) (d : String) : Except PyErr ParserState :=
  match s.links_stack with
  | l :: _ =>
    .ok { s with heap := s.heap.set l (setText (s.heap.getD l ⟨none, none, none⟩) d) }
  | [] =>
    match s.paragraphs_stack with
    | p :: ps => .ok { s with paragraphs_stack := (p ++ [.text d]) :: ps }
    | [] => .ok s

/-- One callback event fed to the builder. -/
inductive HEv
  | startTag (tag : String) (attrs : List (String × String))
  | endTag (tag : String)
  | text (d : String)
  deriving DecidableEq, Repr

def parserStep (s : ParserState) : HEv → Except PyErr ParserState
  | .startTag tag attrs => handle_starttag s tag attrs
  | .endTag tag => handle_endtag s tag
  | .text d => handle_data s d

/-- Run a callback sequence from a given state, stopping at the first
raised exception. -/
def runEventsFrom (s : ParserState) (evs : List HEv) : Except PyErr ParserState :=
  evs.foldlM parserStep s

def runEvents (evs : List HEv) : Except PyErr ParserState :=
  runEventsFrom initParser evs

/-- JSON rendering of one link node, with the keys in the insertion order
the Python code produces: `type`, `marks` (whose single mark carries only
the attributes that were actually present), and `text` only once it has
been assigned. -/
def linkJson (ln : LinkNode) : Json :=
  .obj
    ([("type", .str "text"),
      ("marks", .arr [.obj [("type", .str "link"),
        ("attrs", .obj
          ((match ln.href with | some h => [("href", Json.str h)] | none => []) ++
           (match ln.title with | some t => [("title", Json.str t)] | none => [])))]])] ++
     (match ln.text with | some t => [("text", Json.str t)] | none => []))

def pnodeJson (heap : List LinkNode) : PNode → Json
  | .text d => .obj [("type", .str "text"), ("text", .str d)]
  | .linkRef id => linkJson (heap.getD id ⟨none, none, none⟩)

def paragraphJson (heap : List LinkNode) (p : Paragraph) : Json :=
  .obj [("type", .str "paragraph"), ("content", .arr (p.map (pnodeJson heap)))]

/-- Model of `get_json_model_as_string`: the document the instance's
`json_model` field serializes to, with link references resolved through
the heap.  String formatting aside, this is the structure `json.dumps`
emits, keys in insertion order. -/
def get_json_model (s : ParserState) : Json :=
  .obj [("type", .str "doc"), ("content", .arr (s.json_model.map (paragraphJson s.heap)))]

/-- Number of close-paragraph events in a callback sequence. -/
def countClosePar (evs : List HEv) : Nat :=
  evs.countP fun e => match e with | .endTag t => t = "p" | _ => false

/-! ## Rate-limit lookup from `api.get_rate_limit_interval`

The mocked HTTP exchange either fails transport-side (non-2xx status or a
body `request.json()` cannot parse — both land in the same
`except` clause raising `QueryException`) or produces a parsed JSON body.
The body is then probed exactly as the Python does: `"errors" in data`
(Python `in`, whose behaviour depends on the runtime type of `data`),
then a chain of subscript accesses guarded only by `except KeyError`, and
a final true division. -/

/-- Executable prefix test on character lists. -/
def leadsWith : List Char → List Char → Bool
  | [], _ => true
  | _ :: _, [] => false
  | a :: as, b :: bs => a = b && leadsWith as bs

/-- Executable substring test: the needle starts at some position of the
haystack (the empty needle matches everywhere, including at the end). -/
def subTextOf (needle : List Char) : List Char → Bool
  | [] => needle.isEmpty
  | c :: rest => leadsWith needle (c :: rest) || subTextOf needle rest

/-- Python `in` with a string on the left: key lookup on dicts, element
equality on lists, substring test on strings, `TypeError` otherwise. -/
def pyContains (key : String) : Json → Except PyErr Bool
  | .obj fs => .ok (fs.any fun f => f.1 = key)
  | .arr es => .ok (es.any fun e => match e with | .str s => s = key | _ => false)
  | .str s => .ok (subTextOf key.data s.data)
  | _ => .error .typeErr

/-- Last value bound to a key in an object's field list — the value
`json.loads` keeps when a key repeats, and the one `dict` subscripting
returns. -/
def lookupLast (fs : List (String × Json)) (key : String) : Option Json :=
  fs.foldl (fun acc f => if f.1 = key then some f.2 else acc) none

/-- Python subscripting `data[key]` with a string key: dict lookup
(`KeyError` when absent); every other runtime type raises `TypeError`. -/
def pySubscript (j : Json) (key : String) : Except PyErr Json :=
  match j with
  | .obj fs =>
    match lookupLast fs key with
    | some v => .ok v
    | none => .error .keyError
  | _ => .error .typeErr

/-- The chain `j[k1][k2]...[kn]`. -/
def pyGetChain (j : Json) : List String → Except PyErr Json
  | [] => .ok j
  | k :: ks => do pyGetChain (← pySubscript j k) ks

/-- Numeric coercion for Python arithmetic: JSON numbers are numbers, and
Python `bool` is an `int` subclass, so `true`/`false` act as 1/0. -/
def pyToNum : Json → Option ℚ
  | .num q => some q
  | .bool b => some (if b then 1 else 0)
  | _ => none

/-- Python true division: `TypeError` on non-numeric operands,
`ZeroDivisionError` on a zero divisor. -/
def pyDiv (a b : Json) : Except PyErr ℚ :=
  match pyToNum a, pyToNum b with
  | some x, some y => if y = 0 then .error .zeroDiv else .ok (x / y)
  | _, _ => .error .typeErr

/-- A mocked HTTP exchange: transport-level failure (non-2xx status),
unparsable body, or a parsed JSON body. -/
inductive Resp
  | httpError
  | unparsable
  | body (j : Json)

def rateLimitPath : List String := ["query", "userinfo", "ratelimits", "edit", "user"]

/-- Model of `api.get_rate_limit_interval`: transport failures raise
`QueryException`; a body carrying `errors` raises `InputException`; then
the nested member accesses run under `except KeyError` (mapped to
`InputException`), while any other exception — `TypeError` from
subscripting a non-dict or dividing non-numbers, `ZeroDivisionError` from
zero `hits` — propagates out unhandled. -/
def get_rate_limit_interval : Resp → Except PyErr ℚ
  | .httpError => .error .queryExc
  | .unparsable => .error .queryExc
  | .body j => do
    if ← pyContains "errors" j then
      .error .inputExc
    else
      match (do
        let limits ← pyGetChain j rateLimitPath
        let s ← pySubscript limits "seconds"
        let h ← pySubscript limits "hits"
        pyDiv s h : Except PyErr ℚ) with
      | .error .keyError => .error .inputExc
      | .error e => .error e
      | .ok q => .ok q

/-- Fields check for the final `user` limits node: subscripting it
requires a dict; a missing `seconds` or `hits` key is a `KeyError`
(benign: it becomes `InputException`); when both are present the division
needs two numbers and a nonzero divisor. -/
def limitsFieldsOk : Json → Bool
  | .obj fs =>
    match lookupLast fs "seconds", lookupLast fs "hits" with
    | some s, some h =>
      (pyToNum s).isSome &&
        (match pyToNum h with | some q => decide (q ≠ 0) | none => false)
    | _, _ => true
  | _ => false

/-- Walk of the success path: every node actually subscripted must be a
dict, and a missing key anywhere stops the walk benignly. -/
def chainOk : Json → List String → Bool
  | j, [] => limitsFieldsOk j
  | j, k :: ks =>
    match j with
    | .obj fs =>
      match lookupLast fs k with
      | none => true
      | some v => chainOk v ks
    | _ => false

/-- Sufficient well-shapedness of a response for the two-kind error
taxonomy: a dict body whose rate-limit path traverses dicts and whose
fully-present limits are numeric with nonzero `hits`. -/
def rateLimitRespOk : Resp → Bool
  | .httpError => true
  | .unparsable => true
  | .body j =>
    match j with
    | .obj _ => chainOk j rateLimitPath
    | _ => false

/-! ## Dispatch loop from `__main__.main`

Per recipient the loop makes one post attempt inside
`try/except (QueryException, InputException)/finally`: the two
application exceptions are logged and the loop continues, the `finally`
block sleeps the pacing interval unconditionally, and any other
("unexpected") exception still sleeps in `finally` but then propagates,
aborting the remaining batch. -/

/-- Per-recipient outcome of the post attempt: the call returned a status
boolean, raised one of the two application exceptions, or raised an
unexpected exception. -/
inductive Outcome
  | success (posted : Bool)
  | reported
  | unexpected
  deriving DecidableEq, Repr

inductive DEv
  | attempt
  | sleep
  deriving DecidableEq, Repr

/-- Model of the dispatch `for` loop: the trace of attempts and pacing
sleeps, and whether the loop ran the whole batch (`false` when an
unexpected exception aborted it). -/
def dispatch : List Outcome → List DEv × Bool
  | [] => ([], true)
  | o :: os =>
    match o with
    | .unexpected => ([.attempt, .sleep], false)
    | _ =>
      let (t, c) := dispatch os
      (.attempt :: .sleep :: t, c)

def countSleeps (t : List DEv) : Nat := t.countP (· = DEv.sleep)

def countAttempts (t : List DEv) : Nat := t.countP (· = DEv.attempt)

/-! ## Privilege gate from `util.has_rights`

The Python builds the regex `(?=(p1|p2|...))` from the permissible groups
and runs `re.findall` over the `|`-joined user groups: the lookahead
matches at any position where some permissible string starts, so the
result is nonempty exactly when some permissible string occurs as a
substring of the joined groups.  With an empty permissible list the
pattern degenerates to `(?=())`, which matches everywhere — equivalently,
the empty string is a substring of anything.  (Permissible entries are
treated as regex literals; none of the group names involved contain
metacharacters.) -/

def joinPipe (groups : List (List Char)) : List Char :=
  List.intercalate ['|'] groups

def has_rights (groups permissible : List (List Char)) : Bool :=
  let alts := if permissible.isEmpty then [[]] else permissible
  alts.any fun p => subTextOf p (joinPipe groups)


/-! ## Base-URL validation from `util.is_fandom_wiki_base_url`

The function strips spaces, runs `urllib.parse.urlparse`, rejects unless
scheme and netloc are the only nonempty components, then pops everything
before the first dot of the netloc and compares the remainder with the
two permitted domains.  `urlparse` is modelled after CPython's
implementation for URLs without bracketed (IPv6) hosts and without the
non-ASCII characters that trigger its NFKC netloc check — on those
inputs CPython raises `ValueError`, which is outside this model's scope
(no claim input goes near them). -/

structure UrlParts where
  scheme : List Char
  netloc : List Char
  path : List Char
  params : List Char
  query : List Char
  fragment : List Char
  deriving DecidableEq, Repr

def schemeCharOk (c : Char) : Bool :=
  c.isAlpha || c.isDigit || c = '+' || c = '-' || c = '.'

/-- Schemes for which `urlparse` splits `;params` off the path. -/
def usesParams : List (List Char) :=
  ["".data, "ftp".data, "hdl".data, "prospero".data, "http".data, "imap".data,
   "https".data, "shttp".data, "rtsp".data, "rtspu".data, "sip".data,
   "sips".data, "mms".data, "sftp".data, "tel".data]

def lastIdxOf (l : List Char) (c : Char) : Nat :=
  match l.reverse.findIdx? (· = c) with
  | some k => l.length - 1 - k
  | none => 0

def findFrom (l : List Char) (c : Char) (start : Nat) : Option Nat :=
  ((l.drop start).findIdx? (· = c)).map (· + start)

/-- CPython `_splitparams`, called only when the path contains `;`: the
parameters start at the first `;` of the last path segment. -/
def splitParamsPart (p : List Char) : List Char × List Char :=
  if p.contains '/' then
    match findFrom p ';' (lastIdxOf p '/') with
    | none => (p, [])
    | some i => (p.take i, p.drop (i + 1))
  else
    match p.findIdx? (· = ';') with
    | none => (p, [])
    | some i => (p.take i, p.drop (i + 1))

/-- Model of `urllib.parse.urlparse`: strip leading control/space
characters and embedded tab/CR/LF, take a syntactically valid scheme
before a colon (lowercased), take the netloc after `//` up to the next
`/`, `?` or `#`, split the fragment at the first `#`, the query at the
first `?`, and finally the params off the path's last segment for the
schemes that use them. -/
def urlparse (url0 : List Char) : UrlParts :=
  let url1 := (url0.dropWhile (fun c => c.toNat ≤ 32)).filter
    (fun c => !(c = '\t' || c = '\r' || c = '\n'))
  let schemeSplit :=
    match url1.findIdx? (· = ':') with
    | some i =>
      if 0 < i && (url1.headD ' ').isAlpha && (url1.take i).all schemeCharOk then
        ((url1.take i).map Char.toLower, url1.drop (i + 1))
      else ([], url1)
    | none => ([], url1)
  let scheme := schemeSplit.1
  let url2 := schemeSplit.2
  let netlocSplit :=
    if url2.take 2 = ['/', '/'] then
      let rest := url2.drop 2
      let n := rest.takeWhile (fun c => !(c = '/' || c = '?' || c = '#'))
      (n, rest.drop n.length)
    else ([], url2)
  let netloc := netlocSplit.1
  let url3 := netlocSplit.2
  let fragSplit :=
    match url3.findIdx? (· = '#') with
    | some i => (url3.take i, url3.drop (i + 1))
    | none => (url3, [])
  let url4 := fragSplit.1
  let fragment := fragSplit.2
  let querySplit :=
    match url4.findIdx? (· = '?') with
    | some i => (url4.take i, url4.drop (i + 1))
    | none => (url4, [])
  let url5 := querySplit.1
  let query := querySplit.2
  let pp :=
    if scheme ∈ usesParams && url5.contains ';' then splitParamsPart url5
    else (url5, [])
  ⟨scheme, netloc, pp.1, pp.2, query, fragment⟩

/-- Python `url.strip(" ")`: spaces only, both ends. -/
def pyStripSpaces (l : List Char) : List Char :=
  ((l.dropWhile (· = ' ')).reverse.dropWhile (· = ' ')).reverse

/-- Model of `"eizen.fandom.com".split(".")`: maximal dot-free chunks,
with empty chunks for leading, trailing or doubled dots; never empty. -/
def splitOnDot : List Char → List (List Char)
  | [] => [[]]
  | c :: rest =>
    if c = '.' then [] :: splitOnDot rest
    else
      match splitOnDot rest with
      | [] => [[c]]
      | h :: t => (c :: h) :: t

/-- Model of `".".join(...)`. -/
def joinDot : List (List Char) → List Char
  | [] => []
  | [x] => x
  | x :: y :: t => x ++ '.' :: joinDot (y :: t)

def permittedDomains : List (List Char) := ["fandom.com".data, "wikia.org".data]

/-- Model of `util.is_fandom_wiki_base_url`: after stripping spaces and
parsing, require scheme and netloc to be the only nonempty components,
drop the part of the netloc before its first dot (`split`/`pop(0)`/
`join`), and compare the remainder against the permitted domains. -/
def is_fandom_wiki_base_url (url : List Char) : Bool :=
  let p := urlparse (pyStripSpaces url)
  if p.scheme.isEmpty || p.netloc.isEmpty || !p.path.isEmpty || !p.params.isEmpty ||
      !p.query.isEmpty || !p.fragment.isEmpty then
    false
  else
    let domain := joinDot ((splitOnDot p.netloc).drop 1)
    domain = "fandom.com".data || domain = "wikia.org".data

/-- The property claimed of `is_fandom_wiki_base_url`, read literally:
the URL parses to scheme and host only, and the host is exactly one
(nonempty) subdomain label followed by a dot and a permitted registrable
domain. -/
def specWikiBaseUrl (url : List Char) : Prop :=
  let p := urlparse (pyStripSpaces url)
  p.scheme ≠ [] ∧ p.netloc ≠ [] ∧ p.path = [] ∧ p.params = [] ∧
    p.query = [] ∧ p.fragment = [] ∧
    ∃ lab d, lab ≠ [] ∧ '.' ∉ lab ∧ d ∈ permittedDomains ∧ p.netloc = lab ++ '.' :: d

/-- The property the code actually decides: as `specWikiBaseUrl`, except
that the leading dot-free segment of the netloc is not validated at all —
it may be empty (and, the netloc being the raw authority component, it
may carry userinfo text). -/
def specWikiBaseUrlAmended (url : List Char) : Prop :=
  let p := urlparse (pyStripSpaces url)
  p.scheme ≠ [] ∧ p.netloc ≠ [] ∧ p.path = [] ∧ p.params = [] ∧
    p.query = [] ∧ p.fragment = [] ∧
    ∃ lab d, '.' ∉ lab ∧ d ∈ permittedDomains ∧ p.netloc = lab ++ '.' :: d


/-- Well-formedness of the link stack: every stacked link identifier
points into the heap.  Holds in every reachable parser state. -/
def linksWF (s : ParserState) : Prop :=
  ∀ i ∈ s.links_stack, i < s.heap.length

/-- The callback sequence produced by feeding the parser the MediaWiki
rendering of `Test [[link|label]] text [[link2|label2]].` — one
paragraph holding two anchors and three interleaved plain-text runs. -/
def c3events : List HEv :=
  [.startTag "p" [],
   .text "Test ",
   .startTag "a" [("href", "/wiki/Link"), ("title", "Link")],
   .text "label",
   .endTag "a",
   .text " text ",
   .startTag "a" [("href", "/wiki/Link2"), ("title", "Link2")],
   .text "label2",
   .endTag "a",
   .text ".",
   .endTag "p"]

/-- The document the spec expects for `c3events`: a doc root whose
content is one paragraph with five ordered nodes — text, link with
display text `label`, text, link with display text `label2`, text. -/
def c3expected : Json :=
  .obj [("type", .str "doc"), ("content", .arr [
    .obj [("type", .str "paragraph"), ("content", .arr [
      .obj [("type", .str "text"), ("text", .str "Test ")],
      .obj [("type", .str "text"),
        ("marks", .arr [.obj [("type", .str "link"),
          ("attrs", .obj [("href", .str "/wiki/Link"), ("title", .str "Link")])]]),
        ("text", .str "label")],
      .obj [("type", .str "text"), ("text", .str " text ")],
      .obj [("type", .str "text"),
        ("marks", .arr [.obj [("type", .str "link"),
          ("attrs", .obj [("href", .str "/wiki/Link2"), ("title", .str "Link2")])]]),
        ("text", .str "label2")],
      .obj [("type", .str "text"), ("text", .str ".")]])]])]


/-! ## Helper lemmas -/

/-- Inserting a title whose key is comparable with every key in the
accumulator succeeds and yields a permutation of the extended
accumulator. -/
theorem insertSorted_ok (x : List Char) (acc : List (List Char))
    (h : ∀ y ∈ acc, (cmpKey (natKey x) (natKey y)).isSome) :
    ∃ r, insertSorted x acc = .ok r ∧ r.Perm (x :: acc) := by
  induction acc with
  | nil => exact ⟨[x], rfl, List.Perm.refl _⟩
  | cons y ys ih =>
    have hy := h y (List.mem_cons_self y ys)
    obtain ⟨o, ho⟩ := Option.isSome_iff_exists.mp hy
    obtain ⟨r, hr, hperm⟩ := ih (fun z hz => h z (List.mem_cons_of_mem _ hz))
    by_cases hlt : o = Ordering.lt
    · refine ⟨x :: y :: ys, ?_, List.Perm.refl _⟩
      simp [insertSorted, pyLtKey, ho, hlt, Bind.bind, Except.bind]
    · refine ⟨y :: r, ?_, ?_⟩
      · simp [insertSorted, pyLtKey, ho, hlt, hr, Bind.bind, Except.bind]
      · exact (hperm.cons y).trans (List.Perm.swap x y ys)

/-- Folding `insertSorted` over titles whose keys are pairwise comparable
(also with the accumulator) succeeds with a permutation of the combined
input. -/
theorem sortFold_ok (l : List (List Char)) :
    ∀ acc : List (List Char),
      (∀ x ∈ l, ∀ y, (y ∈ acc ∨ y ∈ l) → (cmpKey (natKey x) (natKey y)).isSome) →
      ∃ r, List.foldlM (fun acc x => insertSorted x acc) acc l = .ok r ∧ r.Perm (acc ++ l) := by
  induction l with
  | nil => exact fun acc _ => ⟨acc, rfl, by simp⟩
  | cons x ls ih =>
    intro acc h
    obtain ⟨r1, hr1, hp1⟩ :=
      insertSorted_ok x acc (fun y hy => h x (List.mem_cons_self _ _) y (Or.inl hy))
    have h' : ∀ z ∈ ls, ∀ y, (y ∈ r1 ∨ y ∈ ls) → (cmpKey (natKey z) (natKey y)).isSome := by
      intro z hz y hy
      rcases hy with hy | hy
      · rcases List.mem_cons.mp (hp1.mem_iff.mp hy) with rfl | hmem
        · exact h z (List.mem_cons_of_mem _ hz) y (Or.inr (List.mem_cons_self _ _))
        · exact h z (List.mem_cons_of_mem _ hz) y (Or.inl hmem)
      · exact h z (List.mem_cons_of_mem _ hz) y (Or.inr (List.mem_cons_of_mem _ hy))
    obtain ⟨r2, hr2, hp2⟩ := ih r1 h'
    refine ⟨r2, ?_, ?_⟩
    · simp [List.foldlM, hr1]
      simpa [List.foldlM] using hr2
    · exact hp2.trans ((hp1.append_right ls).trans List.perm_middle.symm)

/-- `members.sort(key=...)` succeeds on pairwise-comparable keys and
returns a permutation of its input. -/
theorem sortMembers_ok (l : List (List Char))
    (h : ∀ x ∈ l, ∀ y ∈ l, (cmpKey (natKey x) (natKey y)).isSome) :
    ∃ r, sortMembers l = .ok r ∧ r.Perm l := by
  obtain ⟨r, hr, hp⟩ := sortFold_ok l []
    (by
      intro x hx y hy
      rcases hy with hy | hy
      · exact absurd hy (List.not_mem_nil y)
      · exact h x hx y hy)
  exact ⟨r, hr, by simpa using hp⟩

/-- `handle_data` never raises, whatever the state. -/
theorem handle_data_total (s : ParserState) (d : String) :
    ∃ s', handle_data s d = .ok s' := by
  unfold handle_data
  rcases s.links_stack with _ | ⟨l, ls⟩
  · rcases hps : s.paragraphs_stack with _ | ⟨p, ps⟩ <;> simp [hps]
  · simp

/-- A successful callback leaves the document content list unchanged
except that a close-paragraph event appends exactly one paragraph. -/
theorem parserStep_json_model (s s' : ParserState) (e : HEv)
    (h : parserStep s e = .ok s') :
    s'.json_model.length = s.json_model.length + countClosePar [e] := by
  cases e with
  | startTag tag attrs =>
    have hc : countClosePar [HEv.startTag tag attrs] = 0 := by simp [countClosePar]
    rw [hc]
    simp only [parserStep] at h
    unfold handle_starttag at h
    split at h
    · injection h with h; subst h; rfl
    · split at h
      · split at h
        · simp at h
        · injection h with h; subst h; rfl
      · injection h with h; subst h; rfl
  | endTag tag =>
    simp only [parserStep] at h
    unfold handle_endtag at h
    split at h
    · rename_i hp
      split at h
      · simp at h
      · injection h with h; subst h
        simp [countClosePar, hp]
    · rename_i hp
      split at h
      · split at h
        · simp at h
        · injection h with h; subst h
          simp [countClosePar, hp]
      · injection h with h; subst h
        simp [countClosePar, hp]
  | text d =>
    have hc : countClosePar [HEv.text d] = 0 := by simp [countClosePar]
    rw [hc]
    simp only [parserStep] at h
    unfold handle_data at h
    split at h
    · injection h with h; subst h; rfl
    · split at h
      · injection h with h; subst h; rfl
      · injection h with h; subst h; rfl

/-- Every successful callback preserves well-formedness of the link
stack: stacked identifiers keep pointing into the heap (the heap only
grows, and a fresh link is allocated at the old heap length). -/
theorem parserStep_wf (s s' : ParserState) (e : HEv)
    (hwf : linksWF s) (h : parserStep s e = .ok s') : linksWF s' := by
  cases e with
  | startTag tag attrs =>
    simp only [parserStep] at h
    unfold handle_starttag at h
    split at h
    · injection h with h; subst h; exact hwf
    · split at h
      · split at h
        · simp at h
        · injection h with h; subst h
          intro i hi
          simp only [List.mem_cons] at hi
          rcases hi with rfl | hi
          · simp
          · have := hwf i hi
            simp only [List.length_append, List.length_cons, List.length_nil]
            omega
      · injection h with h; subst h; exact hwf
  | endTag tag =>
    simp only [parserStep] at h
    unfold handle_endtag at h
    split at h
    · split at h
      · simp at h
      · injection h with h; subst h
        exact fun i hi => hwf i hi
    · split at h
      · split at h
        · simp at h
        · injection h with h; subst h
          rename_i heq
          intro i hi
          exact hwf i (by rw [heq]; exact List.mem_cons_of_mem _ hi)
      · injection h with h; subst h; exact hwf
  | text d =>
    simp only [parserStep] at h
    unfold handle_data at h
    split at h
    · injection h with h; subst h
      intro i hi
      simp only [List.length_set]
      exact hwf i hi
    · split at h
      · injection h with h; subst h; exact hwf
      · injection h with h; subst h; exact hwf

/-- Well-formedness of the link stack along any successful run. -/
theorem runEventsFrom_wf (evs : List HEv) :
    ∀ s₀ s, linksWF s₀ → runEventsFrom s₀ evs = .ok s → linksWF s := by
  induction evs with
  | nil =>
    intro s₀ s hwf h
    simp [runEventsFrom, List.foldlM, pure, Except.pure] at h
    subst h
    exact hwf
  | cons e rest ih =>
    intro s₀ s hwf h
    unfold runEventsFrom at h
    rw [List.foldlM_cons] at h
    rcases h1 : parserStep s₀ e with e' | s₁
    · rw [h1] at h
      simp [Bind.bind, Except.bind] at h
    · rw [h1] at h
      simp only [Bind.bind, Except.bind] at h
      exact ih s₁ s (parserStep_wf s₀ s₁ e hwf h1) h

/-- With an open link whose identifier points into the heap,
`handle_data` succeeds and makes the incoming data that link's display
text, regardless of what the link's text was before. -/
theorem handle_data_overwrites (s : ParserState) (d : String) (l : Nat) (rest : List Nat)
    (hls : s.links_stack = l :: rest) (hlen : l < s.heap.length) :
    ∃ s', handle_data s d = .ok s' ∧
      (s'.heap.getD l ⟨none, none, none⟩).text = some d := by
  refine ⟨_, by unfold handle_data; rw [hls], ?_⟩
  simp only [List.getD]
  rw [List.get?_eq_getElem?, List.getElem?_set_eq_of_lt _ hlen]
  simp [setText]

/-- Walking the rate-limit success path over a well-shaped body either
stops at a missing key (`KeyError`) or reaches a well-shaped limits
node. -/
theorem pyGetChain_classify (path : List String) :
    ∀ j : Json, chainOk j path = true →
      pyGetChain j path = .error .keyError ∨
      ∃ u, pyGetChain j path = .ok u ∧ limitsFieldsOk u = true := by
  induction path with
  | nil => exact fun j h => Or.inr ⟨j, rfl, h⟩
  | cons k ks ih =>
    intro j h
    cases j with
    | obj fs =>
      rcases hl : lookupLast fs k with _ | v
      · left
        simp [pyGetChain, pySubscript, hl, Bind.bind, Except.bind]
      · have h' : chainOk v ks = true := by
          simp only [chainOk, hl] at h
          exact h
        have hstep : pyGetChain (Json.obj fs) (k :: ks) = pyGetChain v ks := by
          simp [pyGetChain, pySubscript, hl, Bind.bind, Except.bind]
        rw [hstep]
        exact ih v h'
    | null => simp [chainOk] at h
    | bool b => simp [chainOk] at h
    | num q => simp [chainOk] at h
    | str s => simp [chainOk] at h
    | arr es => simp [chainOk] at h

/-- On a well-shaped limits node, extracting `seconds` and `hits` and
dividing either stops at a missing key or produces a rational. -/
theorem limitsExtract_classify (u : Json) (hu : limitsFieldsOk u = true) :
    (do
      let s ← pySubscript u "seconds"
      let h2 ← pySubscript u "hits"
      pyDiv s h2 : Except PyErr ℚ) = .error .keyError ∨
    ∃ q, (do
      let s ← pySubscript u "seconds"
      let h2 ← pySubscript u "hits"
      pyDiv s h2 : Except PyErr ℚ) = .ok q := by
  cases u with
  | obj fs =>
    rcases hs : lookupLast fs "seconds" with _ | s
    · left
      simp [pySubscript, hs, Bind.bind, Except.bind]
    · rcases hh : lookupLast fs "hits" with _ | hv
      · left
        simp [pySubscript, hs, hh, Bind.bind, Except.bind]
      · right
        simp only [limitsFieldsOk, hs, hh] at hu
        simp only [Bool.and_eq_true] at hu
        obtain ⟨qs, hqs⟩ := Option.isSome_iff_exists.mp hu.1
        rcases hqh : pyToNum hv with _ | qh
        · rw [hqh] at hu
          simp at hu
        · rw [hqh] at hu
          have hne : qh ≠ 0 := by
            have := hu.2
            simpa using this
          refine ⟨qs / qh, ?_⟩
          simp [pySubscript, hs, hh, Bind.bind, Except.bind, pyDiv, hqs, hqh, hne]
  | null => simp [limitsFieldsOk] at hu
  | bool b => simp [limitsFieldsOk] at hu
  | num q => simp [limitsFieldsOk] at hu
  | str s => simp [limitsFieldsOk] at hu
  | arr es => simp [limitsFieldsOk] at hu

/-- A character-list split on dots is never the empty list. -/
theorem splitOnDot_ne_nil (l : List Char) : splitOnDot l ≠ [] := by
  induction l with
  | nil => simp [splitOnDot]
  | cons c rest ih =>
    unfold splitOnDot
    by_cases hc : c = '.'
    · simp [hc]
    · rcases h : splitOnDot rest with _ | ⟨h0, t⟩ <;> simp [hc, h]

/-- Joining a multi-chunk list starts with its head followed by a dot. -/
theorem joinDot_cons (h : List Char) (t : List (List Char)) (ht : t ≠ []) :
    joinDot (h :: t) = h ++ '.' :: joinDot t := by
  cases t with
  | nil => exact absurd rfl ht
  | cons y t' => rfl

/-- `".".join(s.split("."))` restores the original string. -/
theorem joinDot_splitOnDot (l : List Char) : joinDot (splitOnDot l) = l := by
  induction l with
  | nil => rfl
  | cons c rest ih =>
    by_cases hc : c = '.'
    · subst hc
      have h1 : splitOnDot ('.' :: rest) = [] :: splitOnDot rest := by
        simp only [splitOnDot, if_pos]
      rw [h1, joinDot_cons _ _ (splitOnDot_ne_nil rest), ih]
      rfl
    · rcases hspl : splitOnDot rest with _ | ⟨h0, t⟩
      · exact absurd hspl (splitOnDot_ne_nil rest)
      · have h1 : splitOnDot (c :: rest) = (c :: h0) :: t := by
          simp only [splitOnDot, if_neg hc, hspl]
        rw [h1]
        rw [hspl] at ih
        rcases t with _ | ⟨y, t'⟩
        · simp only [joinDot] at ih ⊢
          rw [ih]
        · rw [joinDot_cons _ _ (List.cons_ne_nil y t')]
          rw [joinDot_cons _ _ (List.cons_ne_nil y t')] at ih
          rw [List.cons_append, ih]

/-- No chunk produced by the dot split contains a dot. -/
theorem mem_splitOnDot_no_dot (l : List Char) :
    ∀ x ∈ splitOnDot l, '.' ∉ x := by
  induction l with
  | nil =>
    intro x hx
    simp [splitOnDot] at hx
    simp [hx]
  | cons c rest ih =>
    intro x hx
    unfold splitOnDot at hx
    by_cases hc : c = '.'
    · rw [if_pos hc] at hx
      rcases List.mem_cons.mp hx with rfl | hx
      · simp
      · exact ih x hx
    · rw [if_neg hc] at hx
      rcases hspl : splitOnDot rest with _ | ⟨h0, t⟩
      · exact absurd hspl (splitOnDot_ne_nil rest)
      · rw [hspl] at hx
        rcases List.mem_cons.mp hx with rfl | hx
        · intro hmem
          rcases List.mem_cons.mp hmem with heq | hmem
          · exact hc heq.symm
          · exact ih h0 (hspl ▸ List.mem_cons_self _ _) hmem
        · exact ih x (hspl ▸ List.mem_cons_of_mem _ hx)

/-- Splitting a string of the form `pre ++ "." ++ rest` with a dot-free
`pre` peels off `pre` as the first chunk. -/
theorem splitOnDot_append (pre rest : List Char) (hnd : '.' ∉ pre) :
    splitOnDot (pre ++ '.' :: rest) = pre :: splitOnDot rest := by
  induction pre with
  | nil => simp [splitOnDot]
  | cons c pre' ih =>
    have hc : ¬c = '.' := fun h => hnd (h ▸ List.mem_cons_self _ _)
    have hnd' : '.' ∉ pre' := fun h => hnd (List.mem_cons_of_mem _ h)
    rw [List.cons_append]
    simp only [splitOnDot]
    rw [if_neg hc, ih hnd']

/-- The netloc surgery of `is_fandom_wiki_base_url` — split on dots, pop
the first chunk, rejoin — yields `d` exactly when the netloc is some
dot-free (possibly empty) leading segment followed by `"." ++ d`. -/
theorem popDomain_eq_iff (nl d : List Char) (hd : d ≠ []) :
    joinDot ((splitOnDot nl).drop 1) = d ↔ ∃ lab, '.' ∉ lab ∧ nl = lab ++ '.' :: d := by
  constructor
  · intro h
    rcases hspl : splitOnDot nl with _ | ⟨h0, t⟩
    · exact absurd hspl (splitOnDot_ne_nil nl)
    · rw [hspl] at h
      simp only [List.drop_one, List.tail_cons] at h
      rcases t with _ | ⟨y, t'⟩
      · exact absurd h.symm hd
      · refine ⟨h0, mem_splitOnDot_no_dot nl h0 (hspl ▸ List.mem_cons_self _ _), ?_⟩
        have hjoin := joinDot_splitOnDot nl
        rw [hspl, joinDot_cons _ _ (by simp)] at hjoin
        rw [← hjoin, h]
  · rintro ⟨lab, hnd, rfl⟩
    rw [splitOnDot_append lab d hnd]
    simp only [List.drop_one, List.tail_cons]
    exact joinDot_splitOnDot d

/-- Over any callback sequence that completes without raising, the
document gains exactly one paragraph per close-paragraph event. -/
theorem runEventsFrom_json_model (evs : List HEv) :
    ∀ s₀ s, runEventsFrom s₀ evs = .ok s →
      s.json_model.length = s₀.json_model.length + countClosePar evs := by
  induction evs with
  | nil =>
    intro s₀ s h
    simp [runEventsFrom, List.foldlM, pure, Except.pure] at h
    simp [h, countClosePar]
  | cons e rest ih =>
    intro s₀ s h
    unfold runEventsFrom at h
    rw [List.foldlM_cons] at h
    rcases h1 : parserStep s₀ e with e' | s₁
    · rw [h1] at h
      simp [Bind.bind, Except.bind] at h
    · rw [h1] at h
      simp only [Bind.bind, Except.bind] at h
      have h2 := ih s₁ s h
      have h3 := parserStep_json_model s₀ s₁ e h1
      have hsplit : countClosePar (e :: rest) = countClosePar [e] + countClosePar rest := by
        simp [countClosePar, List.countP_cons]
        omega
      rw [hsplit]
      omega

/-! ## Claim theorems -/

/-- C1 (amended): for every mocked two-page category-members response
sequence — page 1 carrying a continuation cursor, page 2 carrying none —
`get_category_members` performs exactly one pacing sleep, placed between
the two page requests and never before the first; and, provided the
titles' natural-sort keys are pairwise comparable (as they are whenever
every numeric run is a pure digit string), it returns exactly the
deduplicated union of both pages' titles.  Without that proviso the final
sort can raise `TypeError`, so no list is returned (see the
counterexample). -/
theorem c1_two_page_pagination (t1 t2 : List (List Char)) (c cur : List Char) :
    (get_category_members [c] [⟨t1, some cur⟩, ⟨t2, none⟩]).2 = [.req, .sleep, .req] ∧
    ((∀ x ∈ (t1 ++ t2).dedup, ∀ y ∈ (t1 ++ t2).dedup,
        (cmpKey (natKey x) (natKey y)).isSome) →
      ∃ res, (get_category_members [c] [⟨t1, some cur⟩, ⟨t2, none⟩]).1 = .ok res ∧
        res.Nodup ∧ (∀ x, x ∈ res ↔ x ∈ t1 ++ t2) ∧ res.Perm ((t1 ++ t2).dedup)) := by
  have hrun : get_category_members [c] [⟨t1, some cur⟩, ⟨t2, none⟩] =
      (if ((t1 ++ t2).dedup).isEmpty then .ok ((t1 ++ t2).dedup)
       else sortMembers ((t1 ++ t2).dedup), [.req, .sleep, .req]) := by
    simp [get_category_members, getCMprocess, getCMrec, Except.map]
    split <;> rfl
  refine ⟨by rw [hrun], ?_⟩
  intro hcmp
  have hex : ∃ res,
      (if ((t1 ++ t2).dedup).isEmpty then (Except.ok ((t1 ++ t2).dedup) : Except PyErr _)
       else sortMembers ((t1 ++ t2).dedup)) = .ok res ∧ res.Perm ((t1 ++ t2).dedup) := by
    by_cases hemp : ((t1 ++ t2).dedup).isEmpty
    · exact ⟨_, by rw [if_pos hemp], List.Perm.refl _⟩
    · obtain ⟨r, hr, hp⟩ := sortMembers_ok _ hcmp
      exact ⟨r, by rw [if_neg hemp, hr], hp⟩
  obtain ⟨res, hres, hperm⟩ := hex
  refine ⟨res, ?_, ?_, ?_, hperm⟩
  · rw [hrun]
    exact hres
  · exact (hperm.nodup_iff).mpr (List.nodup_dedup _)
  · intro x
    rw [hperm.mem_iff, List.mem_dedup]

/-- C1 witness: a concrete two-page sequence with an overlapping title
(`Page 2` on both pages) yields the deduplicated union with the single
pacing sleep between the two requests. -/
theorem c1_two_page_pagination_witness :
    (get_category_members ["Cat".data]
        [⟨["Page 10".data, "Page 2".data], some "cont".data⟩,
         ⟨["page 1".data, "Page 2".data], none⟩]).2 = [.req, .sleep, .req] ∧
    ∃ res, (get_category_members ["Cat".data]
        [⟨["Page 10".data, "Page 2".data], some "cont".data⟩,
         ⟨["page 1".data, "Page 2".data], none⟩]).1 = .ok res ∧
      res.Nodup ∧
      (∀ x, x ∈ res ↔ x ∈ ["Page 10".data, "Page 2".data] ++ ["page 1".data, "Page 2".data]) ∧
      res.Perm ((["Page 10".data, "Page 2".data] ++ ["page 1".data, "Page 2".data]).dedup) :=
  ⟨(c1_two_page_pagination _ _ _ _).1, (c1_two_page_pagination _ _ _ _).2 (by decide)⟩

/-- C1 counterexample: with page titles `Item 1.5` and `Item 2` the
pagination and its single sleep still happen, but the final natural sort
compares a string key chunk against a numeric one and raises `TypeError`,
so `get_category_members` does not return the deduplicated union. -/
theorem c1_counterexample :
    (get_category_members ["Cat".data]
        [⟨["Item 1.5".data], some "cont".data⟩, ⟨["Item 2".data], none⟩]).1
      = .error .typeErr ∧
    (get_category_members ["Cat".data]
        [⟨["Item 1.5".data], some "cont".data⟩, ⟨["Item 2".data], none⟩]).2
      = [.req, .sleep, .req] := by decide

/-- C4 (amended): the sort applied by `get_category_members` is a
natural/human comparator on titles whose numeric runs are pure digit
strings: digit runs become numbers compared by numeric value (`Page 2`
sorts before `Page 10` even though the string `"10"` precedes `"2"`),
other runs compare case-insensitively, and the example input sorts to
`page 1`, `Page 2`, `Page 10`.  Numeric runs with a decimal point stay
strings, so comparing them against digit runs raises instead (see the
counterexample). -/
theorem c4_natural_sort :
    (get_category_members ["Cat".data]
        [⟨["Page 10".data, "Page 2".data, "page 1".data], none⟩]).1
      = .ok ["page 1".data, "Page 2".data, "Page 10".data] ∧
    natKey "Page 2".data = [.str "page ".data, .num 2, .str []] ∧
    natKey "Page 10".data = [.str "page ".data, .num 10, .str []] ∧
    natKey "page 1".data = [.str "page ".data, .num 1, .str []] ∧
    cmpKey (natKey "Page 2".data) (natKey "Page 10".data) = some .lt ∧
    cmpChars "10".data "2".data = .lt := by decide

/-- C4 counterexample: the claimed comparator would order `Page 2.5`
before `Page 3` by numeric value, but the code's sort key leaves `2.5`
a string (it fails `isdigit`), and comparing it against the number `3`
raises `TypeError` instead of sorting. -/
theorem c4_counterexample :
    (get_category_members ["Cat".data] [⟨["Page 3".data, "Page 2.5".data], none⟩]).1
      = .error .typeErr ∧
    natKey "Page 2.5".data = [.str "page ".data, .str "2.5".data, .str []] := by decide

/-- C9: the natural-sort key used by `get_category_members` is not total —
the regex captures `1.5` as a numeric run but `str.isdigit` rejects it,
so it stays a string while `2` becomes a number, and sorting the
two-element title list compares a number against a string and raises
`TypeError` instead of returning a sorted list. -/
theorem c9_key_not_total :
    natKey "Page 1.5".data = [.str "page ".data, .str "1.5".data, .str []] ∧
    natKey "Page 2".data = [.str "page ".data, .num 2, .str []] ∧
    cmpKey (natKey "Page 2".data) (natKey "Page 1.5".data) = none ∧
    sortMembers ["Page 2".data, "Page 1.5".data] = .error .typeErr ∧
    (get_category_members ["Cat".data]
        [⟨["Page 2".data, "Page 1.5".data], none⟩]).1 = .error .typeErr := by decide

/-- C8: the privilege gate denies a user whose only group is `rollback`
against required groups `threadmoderator`/`sysop`, and allows a user in
`sysop`. -/
theorem c8_privilege_gate :
    has_rights ["rollback".data] ["threadmoderator".data, "sysop".data] = false ∧
    has_rights ["sysop".data] ["threadmoderator".data, "sysop".data] = true := by decide

/-- C10: `has_rights` matches by substring over the joined group string,
not by exact group-name equality — the group `notsysop` passes a gate
requiring `sysop` — and an empty permissible list (whose regex
degenerates to an empty lookahead matching everywhere) grants access for
any nonempty groups list. -/
theorem c10_substring_matching :
    has_rights ["notsysop".data] ["sysop".data] = true ∧
    "notsysop".data ≠ "sysop".data ∧
    (∀ g : List (List Char), g ≠ [] → has_rights g [] = true) := by
  refine ⟨by decide, by decide, ?_⟩
  intro g hg
  unfold has_rights
  simp only [List.isEmpty_nil, if_pos]
  cases hj : joinPipe g with
  | nil => simp [subTextOf]
  | cons c rest => simp [subTextOf, leadsWith]

/-- C10 witness: the empty-permissible case at a concrete groups list. -/
theorem c10_witness : has_rights ["rollback".data] [] = true :=
  c10_substring_matching.2.2 _ (by decide)

/-- In every dispatch trace, each post attempt is followed by its pacing
sleep — the `finally` block runs on success, reported failure and
unexpected exception alike. -/
theorem dispatch_sleeps_eq_attempts (outs : List Outcome) :
    countSleeps (dispatch outs).1 = countAttempts (dispatch outs).1 := by
  induction outs with
  | nil => rfl
  | cons o os ih =>
    cases o with
    | unexpected => rfl
    | success b =>
      rcases hd : dispatch os with ⟨t, c⟩
      rw [hd] at ih
      simp [dispatch, hd, countSleeps, countAttempts, List.countP_cons] at ih ⊢
      omega
    | reported =>
      rcases hd : dispatch os with ⟨t, c⟩
      rw [hd] at ih
      simp [dispatch, hd, countSleeps, countAttempts, List.countP_cons] at ih ⊢
      omega

/-- A batch in which no attempt raises unexpectedly runs to completion
with exactly one sleep per recipient. -/
theorem dispatch_clean_run (outs : List Outcome)
    (h : ∀ o ∈ outs, o ≠ Outcome.unexpected) :
    countSleeps (dispatch outs).1 = outs.length ∧ (dispatch outs).2 = true := by
  induction outs with
  | nil => exact ⟨rfl, rfl⟩
  | cons o os ih =>
    have ho := h o (List.mem_cons_self _ _)
    have ih' := ih (fun o' ho' => h o' (List.mem_cons_of_mem _ ho'))
    cases o with
    | unexpected => exact absurd rfl ho
    | success b =>
      rcases hd : dispatch os with ⟨t, c⟩
      rw [hd] at ih'
      constructor
      · have := ih'.1
        simp [dispatch, hd, countSleeps, List.countP_cons] at this ⊢
        omega
      · simp only [dispatch, hd]
        exact ih'.2
    | reported =>
      rcases hd : dispatch os with ⟨t, c⟩
      rw [hd] at ih'
      constructor
      · have := ih'.1
        simp [dispatch, hd, countSleeps, List.countP_cons] at this ⊢
        omega
      · simp only [dispatch, hd]
        exact ih'.2

/-- C6 (amended): every post attempt — successful, reported failure, or
unexpected exception — is followed by its own pacing sleep, and when
every attempt either succeeds or raises one of the two reported
exception kinds, exactly N sleeps occur for N recipients and the whole
batch is processed.  An unexpected exception still gets its sleep (the
`finally` block) but aborts the remaining recipients (see the
counterexample). -/
theorem c6_dispatch_pacing (outs : List Outcome) :
    countSleeps (dispatch outs).1 = countAttempts (dispatch outs).1 ∧
    ((∀ o ∈ outs, o ≠ Outcome.unexpected) →
      countSleeps (dispatch outs).1 = outs.length ∧ (dispatch outs).2 = true) :=
  ⟨dispatch_sleeps_eq_attempts outs, fun h => dispatch_clean_run outs h⟩

/-- C6 witness: a three-recipient batch mixing success, reported failure
and success paces exactly three times and completes. -/
theorem c6_witness :
    countSleeps (dispatch [Outcome.success true, Outcome.reported, Outcome.success false]).1 =
      [Outcome.success true, Outcome.reported, Outcome.success false].length ∧
    (dispatch [Outcome.success true, Outcome.reported, Outcome.success false]).2 = true :=
  (c6_dispatch_pacing _).2 (by decide)

/-- C6 counterexample: with two recipients whose first attempt raises
unexpectedly, only one pacing sleep occurs (not two) and the batch
aborts before the second recipient. -/
theorem c6_counterexample :
    countSleeps (dispatch [Outcome.unexpected, Outcome.success true]).1 = 1 ∧
    [Outcome.unexpected, Outcome.success true].length = 2 ∧
    (dispatch [Outcome.unexpected, Outcome.success true]).2 = false := by decide

/-- C2 (amended): `handle_data` completes without raising on every state
(unmatched data is dropped), and over any callback sequence that
completes without raising, the serialized document holds exactly one
paragraph per close-paragraph event — in particular a paragraph still
open at end of input contributes no content.  Close-tag events with no
matching open element, and a link opened outside any paragraph, instead
raise `IndexError` (see the counterexample). -/
theorem c2_failsoft :
    (∀ s d, ∃ s', handle_data s d = .ok s') ∧
    (∀ evs s, runEvents evs = .ok s → s.json_model.length = countClosePar evs) := by
  refine ⟨handle_data_total, ?_⟩
  intro evs s h
  have := runEventsFrom_json_model evs initParser s h
  simpa [initParser] using this

/-- C2 witness: a paragraph opened and fed text but never closed yields a
document with no content at all. -/
theorem c2_witness :
    ∃ s, runEvents [HEv.startTag "p" [], HEv.text "orphan"] = .ok s ∧
      s.json_model.length = countClosePar [HEv.startTag "p" [], HEv.text "orphan"] := by
  have h : runEvents [HEv.startTag "p" [], HEv.text "orphan"] =
      .ok ⟨[], [[PNode.text "orphan"]], [], []⟩ := by decide
  exact ⟨_, h, c2_failsoft.2 _ _ h⟩

/-- C2 counterexample: a close-paragraph with no open paragraph, a
close-link with no open link, and a link opened outside any paragraph
each raise `IndexError` — the callbacks do not complete fail-soft on
these unbalanced inputs. -/
theorem c2_counterexample :
    runEvents [HEv.endTag "p"] = .error .indexError ∧
    runEvents [HEv.endTag "a"] = .error .indexError ∧
    runEvents [HEv.startTag "a" [("href", "x")]] = .error .indexError := by decide

/-- C3: feeding the builder the one-paragraph fragment with two links and
three interleaved text runs serializes to a doc root with exactly one
paragraph containing five ordered nodes — text, link with display text
`label`, text, link with display text `label2`, text; and whenever a
link is open, a text event makes its data that link's display text by
assignment, overwriting whatever text the link held before, so only the
last run before the close is kept. -/
theorem c3_roundtrip_and_overwrite :
    ((runEvents c3events).map get_json_model = .ok c3expected) ∧
    (∀ evs s d l rest, runEvents evs = .ok s → s.links_stack = l :: rest →
      ∃ s', handle_data s d = .ok s' ∧
        (s'.heap.getD l ⟨none, none, none⟩).text = some d) := by
  refine ⟨by rfl, ?_⟩
  intro evs s d l rest hrun hls
  have hwf : linksWF s :=
    runEventsFrom_wf evs initParser s (by intro i hi; simp [initParser] at hi) hrun
  exact handle_data_overwrites s d l rest hls
    (hwf l (by rw [hls]; exact List.mem_cons_self _ _))

/-- C3 witness: in a state reached by opening a paragraph and a link and
assigning the link text `first`, a further text event overwrites the
display text with `second`. -/
theorem c3_witness :
    ∃ s', handle_data ⟨[⟨none, none, some "first"⟩], [[PNode.linkRef 0]], [0], []⟩
        "second" = .ok s' ∧
      (s'.heap.getD 0 ⟨none, none, none⟩).text = some "second" := by
  have h0 : runEvents [HEv.startTag "p" [], HEv.startTag "a" [], HEv.text "first"] =
      .ok ⟨[⟨none, none, some "first"⟩], [[PNode.linkRef 0]], [0], []⟩ := by decide
  exact c3_roundtrip_and_overwrite.2 _ _ "second" 0 [] h0 rfl

/-- C5 (amended): transport failures raise `QueryException`, and for
every response body that is a JSON object whose rate-limit path
traverses only objects and whose fully-present limits node carries
numeric `seconds` and nonzero numeric `hits`, `get_rate_limit_interval`
either returns the seconds-per-edit interval or raises one of the two
application exceptions.  Outside that shape the code can also raise
`ZeroDivisionError` (zero `hits`) or `TypeError` (non-dict on the path or
non-numeric operands), which belong to neither kind (see the
counterexample). -/
theorem c5_two_kind_taxonomy (r : Resp) (h : rateLimitRespOk r = true) :
    (∃ q, get_rate_limit_interval r = .ok q) ∨
    get_rate_limit_interval r = .error .queryExc ∨
    get_rate_limit_interval r = .error .inputExc := by
  cases r with
  | httpError => exact Or.inr (Or.inl rfl)
  | unparsable => exact Or.inr (Or.inl rfl)
  | body j =>
    cases j with
    | obj fs =>
      simp only [rateLimitRespOk] at h
      by_cases he : fs.any (fun f => f.1 = "errors")
      · right; right
        simp [get_rate_limit_interval, pyContains, he, Bind.bind, Except.bind]
      · rcases pyGetChain_classify rateLimitPath (Json.obj fs) h with hke | ⟨u, hu, hlim⟩
        · right; right
          simp [get_rate_limit_interval, pyContains, he, hke, Bind.bind, Except.bind]
        · rcases limitsExtract_classify u hlim with hke2 | ⟨q, hq⟩
          · right; right
            simp only [Bind.bind, Except.bind] at hke2
            simp [get_rate_limit_interval, pyContains, he, hu, hke2, Bind.bind, Except.bind]
          · left
            refine ⟨q, ?_⟩
            simp only [Bind.bind, Except.bind] at hq
            simp [get_rate_limit_interval, pyContains, he, hu, hq, Bind.bind, Except.bind]
    | null => simp [rateLimitRespOk] at h
    | bool b => simp [rateLimitRespOk] at h
    | num q => simp [rateLimitRespOk] at h
    | str s => simp [rateLimitRespOk] at h
    | arr es => simp [rateLimitRespOk] at h

/-- C5 witness: a well-shaped body with `seconds` 90 and `hits` 60 lands
in the two-kind taxonomy (it in fact returns the interval). -/
theorem c5_witness :
    (∃ q, get_rate_limit_interval (.body (.obj [("query", .obj [("userinfo", .obj
      [("ratelimits", .obj [("edit", .obj [("user", .obj [("seconds", .num 90),
      ("hits", .num 60)])])])])])])) = .ok q) ∨
    get_rate_limit_interval (.body (.obj [("query", .obj [("userinfo", .obj
      [("ratelimits", .obj [("edit", .obj [("user", .obj [("seconds", .num 90),
      ("hits", .num 60)])])])])])])) = .error .queryExc ∨
    get_rate_limit_interval (.body (.obj [("query", .obj [("userinfo", .obj
      [("ratelimits", .obj [("edit", .obj [("user", .obj [("seconds", .num 90),
      ("hits", .num 60)])])])])])])) = .error .inputExc :=
  c5_two_kind_taxonomy _ (by decide)

/-- C5 counterexample: a well-formed body whose `hits` is 0 makes
`get_rate_limit_interval` raise `ZeroDivisionError`, which is neither
`QueryException` nor `InputException` — so not every failure is one of
the two kinds. -/
theorem c5_counterexample :
    get_rate_limit_interval (.body (.obj [("query", .obj [("userinfo", .obj
      [("ratelimits", .obj [("edit", .obj [("user", .obj [("seconds", .num 60),
      ("hits", .num 0)])])])])])])) = .error .zeroDiv ∧
    PyErr.zeroDiv ≠ PyErr.queryExc ∧ PyErr.zeroDiv ≠ PyErr.inputExc := by decide

/-- Propositional characterization of the boolean test inside
`is_fandom_wiki_base_url`, for an arbitrary parse result. -/
theorem base_url_bool_iff (p : UrlParts) :
    (if p.scheme.isEmpty || p.netloc.isEmpty || !p.path.isEmpty || !p.params.isEmpty ||
        !p.query.isEmpty || !p.fragment.isEmpty then false
     else
       ((joinDot ((splitOnDot p.netloc).drop 1) = "fandom.com".data : Bool) ||
        (joinDot ((splitOnDot p.netloc).drop 1) = "wikia.org".data : Bool))) = true ↔
    (p.scheme ≠ [] ∧ p.netloc ≠ [] ∧ p.path = [] ∧ p.params = [] ∧ p.query = [] ∧
      p.fragment = [] ∧
      (joinDot ((splitOnDot p.netloc).drop 1) = "fandom.com".data ∨
       joinDot ((splitOnDot p.netloc).drop 1) = "wikia.org".data)) := by
  by_cases hc : (p.scheme.isEmpty || p.netloc.isEmpty || !p.path.isEmpty || !p.params.isEmpty ||
      !p.query.isEmpty || !p.fragment.isEmpty) = true
  · rw [if_pos hc]
    simp only [Bool.or_eq_true, List.isEmpty_iff, Bool.not_eq_true', List.isEmpty_eq_false] at hc
    constructor
    · intro hF
      cases hF
    · rintro ⟨h1, h2, h3, h4, h5, h6, _⟩
      rcases hc with ((((hc | hc) | hc) | hc) | hc) | hc <;> simp_all
  · rw [if_neg hc]
    simp only [Bool.or_eq_true, List.isEmpty_iff, Bool.not_eq_true', List.isEmpty_eq_false,
      not_or] at hc
    obtain ⟨⟨⟨⟨⟨h1, h2⟩, h3⟩, h4⟩, h5⟩, h6⟩ := hc
    simp only [Bool.or_eq_true, decide_eq_true_eq]
    constructor
    · intro hdom
      exact ⟨h1, h2, by simpa using h3, by simpa using h4, by simpa using h5,
        by simpa using h6, hdom⟩
    · rintro ⟨_, _, _, _, _, _, hdom⟩
      exact hdom

/-- C7 (amended): `is_fandom_wiki_base_url u` is true exactly when, after
stripping surrounding spaces, `u` parses with scheme and netloc as its
only nonempty components and the netloc is some dot-free leading segment
— possibly empty, and not otherwise validated — followed by a dot and
one of the two permitted domains.  The claim's stronger reading, with a
nonempty subdomain label, fails: see the counterexample. -/
theorem c7_base_url (u : List Char) :
    is_fandom_wiki_base_url u = true ↔ specWikiBaseUrlAmended u := by
  unfold is_fandom_wiki_base_url specWikiBaseUrlAmended
  rw [base_url_bool_iff (urlparse (pyStripSpaces u))]
  constructor
  · rintro ⟨h1, h2, h3, h4, h5, h6, hdom | hdom⟩
    · obtain ⟨lab, hnd, heq⟩ := (popDomain_eq_iff _ _ (by decide)).mp hdom
      exact ⟨h1, h2, h3, h4, h5, h6, lab, "fandom.com".data, hnd,
        by simp [permittedDomains], heq⟩
    · obtain ⟨lab, hnd, heq⟩ := (popDomain_eq_iff _ _ (by decide)).mp hdom
      exact ⟨h1, h2, h3, h4, h5, h6, lab, "wikia.org".data, hnd,
        by simp [permittedDomains], heq⟩
  · rintro ⟨h1, h2, h3, h4, h5, h6, lab, d, hnd, hdmem, heq⟩
    refine ⟨h1, h2, h3, h4, h5, h6, ?_⟩
    simp only [permittedDomains, List.mem_cons, List.not_mem_nil, or_false,
      List.mem_singleton] at hdmem
    rcases hdmem with rfl | rfl
    · exact Or.inl ((popDomain_eq_iff _ _ (by decide)).mpr ⟨lab, hnd, heq⟩)
    · exact Or.inr ((popDomain_eq_iff _ _ (by decide)).mpr ⟨lab, hnd, heq⟩)

/-- C7 witness: the documented positive example satisfies the amended
property, via the theorem applied at that URL. -/
theorem c7_witness : specWikiBaseUrlAmended "http://eizen.fandom.com".data :=
  (c7_base_url "http://eizen.fandom.com".data).mp (by decide)

/-- C7 counterexample: `http://.fandom.com` is accepted by the code, yet
its host has no nonempty subdomain label before `fandom.com`, so the
claimed equivalence (read with a real, nonempty label) is false. -/
theorem c7_counterexample :
    is_fandom_wiki_base_url "http://.fandom.com".data = true ∧
    ¬ specWikiBaseUrl "http://.fandom.com".data := by
  constructor
  · decide
  · intro hspec
    unfold specWikiBaseUrl at hspec
    obtain ⟨_, _, _, _, _, _, lab, d, hlabne, hnd, hdmem, heq⟩ := hspec
    have hn : (urlparse (pyStripSpaces "http://.fandom.com".data)).netloc
        = ".fandom.com".data := by decide
    rw [hn] at heq
    rcases lab with _ | ⟨c, lab'⟩
    · exact hlabne rfl
    · rw [List.cons_append] at heq
      have hL : ".fandom.com".data = '.' :: "fandom.com".data := rfl
      rw [hL] at heq
      injection heq with h1 _
      subst h1
      exact hnd (List.mem_cons_self _ _)
